import Mathlib

/-!
# A shallow embedding of the `sand` interpreter core (github.com/Zaba505/sand)

This file embeds, in Lean 4, the concurrency core of the `sand` Go package:
the error-recoverability classifier `IsRecoverable`, the signal monitor
`UI.monitorSys`, the dispatch protocol (`UI.exec` / `runEngine`), the
cancellation-aware I/O wrappers (`UI.Read` / `UI.Write` with their
`readAsync` / `writeAsync` workers), the process-wide engine registry
(`UI.startEngine` and `runEngine`'s teardown), and the `UI.Run` line loop.

Concurrency is embedded by making every scheduler decision explicit:
a Go `select` racing a context's done channel against one communication
is modelled by a `RaceEv` value recording which branch becomes ready
first (or that both were ready together with the pseudo-random pick Go
then performs).  Channel effects are modelled as explicit traces or
buffer states.  Output writes in the `Run` loop model are assumed to
succeed (the loop claims verified here do not involve write failures).
-/

namespace Sand

/-! ## Errors

`BaseErr` models the unwrapped (`errors.Cause`) error values the package
distinguishes: the `context` sentinels, `io.EOF`, values implementing
`net.Error` or `runtime.Error`, the package's own `newLineErr` wrapper
(which does not implement `Causer`, hence is itself a possible root),
and arbitrary other errors.  `GoError` adds `github.com/pkg/errors`
wrapping on top. -/

inductive BaseErr : Type where
  | canceled
  | deadlineExceeded
  | eof
  | netErr (msg : String)
  | runtimeErr (msg : String)
  | newLine (werr : BaseErr)
  | other (msg : String)
deriving DecidableEq, Repr

inductive GoError : Type where
  | base (b : BaseErr)
  | wrap (msg : String) (inner : GoError)
deriving DecidableEq, Repr

/-- `errors.Cause`: strips `pkg/errors` wrapping layers.  `newLineErr`
does not implement `Causer`, so a `BaseErr.newLine` root is returned
as-is. -/
def cause : GoError → BaseErr
  | .base b => b
  | .wrap _ inner => cause inner

/-- The `errTypes` type switch of `IsRecoverable`, including the
`goto errTypes` loop that re-dispatches on the error wrapped by a
`newLineErr`.  `net.Error` and `runtime.Error` cases have empty bodies
and fall through to `return root, false`; the default case returns
`root, true`. -/
def classify : BaseErr → BaseErr × Bool
  | .netErr m => (.netErr m, false)
  | .runtimeErr m => (.runtimeErr m, false)
  | .newLine w => classify w
  | b => (b, true)

/-- `IsRecoverable` from `ui.go`: `nil` is recoverable; then the root
cause is compared against the `context` sentinels; then the type switch
`classify` runs. -/
def IsRecoverable : Option GoError → Option BaseErr × Bool
  | none => (none, true)
  | some e =>
    let root := cause e
    if root = .deadlineExceeded ∨ root = .canceled then (some root, true)
    else
      let (r, ok) := classify root
      (some r, ok)

/-- Repeatedly unwrap `newLineErr` wrapping (the `goto` loop's net
effect on the scrutinee). -/
def unwrapNewLine : BaseErr → BaseErr
  | .newLine w => unwrapNewLine w
  | b => b

/-- Is the error a `net.Error` or `runtime.Error`? -/
def isNetOrRuntime : BaseErr → Bool
  | .netErr _ => true
  | .runtimeErr _ => true
  | _ => false

theorem classify_snd_eq (b : BaseErr) :
    (classify b).2 = !isNetOrRuntime (unwrapNewLine b) := by
  induction b with
  | newLine w ih => simpa [classify, unwrapNewLine] using ih
  | canceled => rfl
  | deadlineExceeded => rfl
  | eof => rfl
  | netErr m => rfl
  | runtimeErr m => rfl
  | other m => rfl

/-! ## Signals

`Sig` models `os.Signal` values: `os.Interrupt`, `os.Kill`, and any
other signal.  The handler table is the `sigHandlers` map. -/

inductive Sig : Type where
  | interrupt
  | kill
  | other (n : Nat)
deriving DecidableEq, Repr

/-- The signal after the handler-table lookup in `UI.monitorSys`:
`handler, exists := ui.sigHandlers[sig]; if exists { sig = handler(sig) }`. -/
def effectiveSig (handlers : Sig → Option (Sig → Sig)) (sig : Sig) : Sig :=
  match handlers sig with
  | some h => h sig
  | none => sig

/-- One iteration of `UI.monitorSys`'s signal case: returns whether
`cancel()` is invoked for the received signal. -/
def monitorStep (handlers : Sig → Option (Sig → Sig)) (sig : Sig) : Bool :=
  let s := match handlers sig with
    | some h => h sig
    | none => sig
  s = Sig.kill ∨ s = Sig.interrupt

/-! ## Select races

A Go `select` with two cases — receiving from a context's done channel
and one other communication — is resolved by which case becomes ready
first; if both are ready at the select, Go picks one by a uniform
pseudo-random choice.  A `RaceEv` records that scheduling information
for one such select. -/

inductive RaceEv : Type where
  /-- the done channel is ready and the other communication is not -/
  | doneFirst
  /-- the other communication becomes ready while the context is not done -/
  | commFirst
  /-- both cases are ready; `pickDone` is Go's pseudo-random choice -/
  | simultaneous (pickDone : Bool)
deriving DecidableEq, Repr

/-- Which branch the `select` executes. -/
inductive SelBranch : Type where
  | done
  | comm
deriving DecidableEq, Repr

def selectResolve : RaceEv → SelBranch
  | .doneFirst => .done
  | .commFirst => .comm
  | .simultaneous pickDone => if pickDone then .done else .comm

/-! ## Dispatch protocol

`execReq` carries a line and an unbuffered response channel
(`respCh: make(chan int)`); channels are modelled by an allocation
identifier plus the capacity given to `make`. -/

structure Chan : Type where
  id : Nat
  capacity : Nat
deriving DecidableEq, Repr

structure ExecReq : Type where
  line : String
  respCh : Chan
deriving DecidableEq, Repr

/-- The `execReq` literal built at the top of `UI.exec`: a fresh
response channel is created by `make(chan int)`, i.e. with capacity 0. -/
def mkExecReq (fresh : Nat) (line : String) : ExecReq :=
  { line := line, respCh := { id := fresh, capacity := 0 } }

/-- The requests built by a sequence of `exec` calls, each allocating a
fresh response channel. -/
def execSeq : Nat → List String → List ExecReq
  | _, [] => []
  | k, l :: ls => mkExecReq k l :: execSeq (k + 1) ls

/-- Operations a goroutine performs on a response channel. -/
inductive ChanOp : Type where
  | send (v : Int)
  | close
deriving DecidableEq, Repr

/-- The operations `runEngine`'s forwarding goroutine performs on
`req.respCh` after `eng.Exec` returns `resp`: a select races delivery
(`req.respCh <- resp`) against the runner's root context being done;
the winning branch either closes without a value or sends the status
and then closes. -/
def respTrace (deliveryEv : RaceEv) (resp : Int) : List ChanOp :=
  match selectResolve deliveryEv with
  | .done => [.close]
  | .comm => [.send resp, .close]

/-- What a receiver blocked on the response channel observes from a
trace: the sent value, or `none` when the channel is closed without a
value. -/
def observe : List ChanOp → Option Int
  | .send v :: _ => some v
  | _ => none

/-- `UI.exec`: the select racing `reqCh <- req` against `ctx.Done()`
returns status 0 without sending when the done branch runs; otherwise
the request is sent and `exec` blocks on `<-req.respCh`, which yields
the delivered value, or the zero value 0 when the channel is closed
without a value.  Returns (request was sent, status). -/
def exec (sendEv : RaceEv) (delivered : Option Int) : Bool × Int :=
  match selectResolve sendEv with
  | .done => (false, 0)
  | .comm => (true, delivered.getD 0)

/-- The status the `exec` caller observes given the forwarding
goroutine's delivery race outcome. -/
def execStatusOf (deliveryEv : RaceEv) (resp : Int) : Int :=
  (observe (respTrace deliveryEv resp)).getD 0

/-! ## Cancellation-aware I/O wrapper

`UI.Read` / `UI.Write` spawn a worker goroutine (`readAsync` /
`writeAsync`) that performs the blocking primitive call, places the
`(n, err)` result into a buffered slot of capacity one, and closes it;
the caller races receiving from that slot against the context being
done. -/

/-- The result pair of an underlying `Read`/`Write` primitive call. -/
structure IOResp : Type where
  n : Nat
  err : Option BaseErr
deriving DecidableEq, Repr

/-- The state of the worker's buffered result slot. -/
structure SlotState : Type where
  buffered : Option IOResp
  closed : Bool
deriving DecidableEq, Repr

/-- `UI.Read`'s select: if the done branch runs, return
`(0, ui.ctx.Err())`; otherwise return the worker's result. -/
def UIRead (ev : RaceEv) (ctxErr : BaseErr) (resp : IOResp) : IOResp :=
  match selectResolve ev with
  | .done => ⟨0, some ctxErr⟩
  | .comm => resp

/-- `readAsync` / `writeAsync` after the primitive returns: a select
races sending the result into the slot against the context being done
(when the context is done both cases are ready, since the capacity-one
buffer is empty); either way the worker then closes the slot and
terminates. -/
def workerFinish (ev : RaceEv) (resp : IOResp) : SlotState :=
  match selectResolve ev with
  | .done => ⟨none, true⟩
  | .comm => ⟨some resp, true⟩

/-- The scenario of a `UI.Read` whose context becomes done before the
underlying primitive returns: the caller's select sees only the done
branch ready (the slot is still empty), so the race event is
`doneFirst`; the worker eventually finishes with result `resp` under an
already-done context.  Returns (what `Read` returned, the slot's final
state). -/
def cancelledRead (ctxErr : BaseErr) (resp : IOResp) (workerEv : RaceEv) :
    IOResp × SlotState :=
  (UIRead RaceEv.doneFirst ctxErr resp, workerFinish workerEv resp)

/-- `UI.Write`: when both the prefix and the argument are nil the call
returns immediately without touching the output (the empty-prefix skip
in `Run`); otherwise `append(prefix, b...)` is handed to `writeAsync`
and the same select race as `UI.Read` decides the outcome. -/
def UIWrite (pre b : Option (List Char)) (ev : RaceEv) (ctxErr : BaseErr)
    (resp : IOResp) : IOResp :=
  if pre = none ∧ b = none then ⟨0, none⟩
  else
    match selectResolve ev with
    | .done => ⟨0, some ctxErr⟩
    | .comm => resp

/-- The cancelled-write scenario, analogous to `cancelledRead`. -/
def cancelledWrite (pre b : Option (List Char)) (ctxErr : BaseErr)
    (resp : IOResp) (workerEv : RaceEv) : IOResp × SlotState :=
  (UIWrite pre b RaceEv.doneFirst ctxErr resp, workerFinish workerEv resp)

/-! ## Engine registry

Engines are registry keys; the Go map `engines.engs` maps an engine
identity to its runner's registration channel.  Engine identities are
modelled as naturals, and each live runner by the identifier allocated
when `startEngine` created it. -/

/-- `engines.engs[eng]` lookup on the association list. -/
def findRunner (e : Nat) : List (Nat × Nat) → Option Nat
  | [] => none
  | (e', r) :: rest => if e' = e then some r else findRunner e rest

/-- The registry: the engine-to-runner table plus the allocator for the
next runner identifier. -/
structure Registry : Type where
  engs : List (Nat × Nat)
  next : Nat
deriving DecidableEq, Repr

/-- `UI.startEngine`: under the registry mutex, look the engine up; if
absent, create a fresh runner (`go runEngine(...)`) and insert it.
Returns the updated registry and the runner the session attaches to. -/
def startEngine (e : Nat) (st : Registry) : Registry × Nat :=
  match findRunner e st.engs with
  | some r => (st, r)
  | none => (⟨(e, st.next) :: st.engs, st.next + 1⟩, st.next)

/-- `runEngine`'s deferred teardown once its root context is cancelled:
`delete(engines.engs, eng)`. -/
def runnerExit (e : Nat) (st : Registry) : Registry :=
  ⟨st.engs.filter (fun p => p.1 ≠ e), st.next⟩

/-- Registry states reachable from the initial empty registry by
attaches and runner exits. -/
inductive Reachable : Registry → Prop where
  | init : Reachable ⟨[], 0⟩
  | attach (e : Nat) (st : Registry) :
      Reachable st → Reachable (startEngine e st).1
  | exit (e : Nat) (st : Registry) :
      Reachable st → Reachable (runnerExit e st)

/-- Well-formedness of the registry: distinct table keys, pairwise
distinct live runners, and every live runner was allocated below the
allocator's next identifier. -/
def RegWF (st : Registry) : Prop :=
  (st.engs.map Prod.fst).Nodup ∧
  (st.engs.map Prod.snd).Nodup ∧
  ∀ p ∈ st.engs, p.2 < st.next

/-- A demonstration registry state: engines 0 and 1 each attached
once. -/
def regDemoState : Registry := (startEngine 1 (startEngine 0 ⟨[], 0⟩).1).1

/-! ## Run loop

One `UI.Run` iteration: write the prefix, read into a 512-byte buffer,
stop on a real error or an empty read, truncate the buffer at the first
zero byte, dispatch the line, stop on a non-zero status, and stop after
dispatching when the read also reported end-of-input.  Output writes
are modelled as succeeding (the verified loop scenarios involve no
write failures), and dispatch as the engine's status for the line (the
scenarios' contexts are never done and their runner stays live). -/

/-- `minRead`, the read buffer size. -/
def minRead : Nat := 512

def nullChar : Char := Char.ofNat 0

/-- One result of the input stream's `Read`: the bytes placed at the
start of the 512-byte buffer, and the returned error. -/
structure ReadItem : Type where
  data : List Char
  rerr : Option BaseErr
deriving DecidableEq, Repr

/-- `string(b)` after `b := make([]byte, minRead)` is filled by the read
and truncated at the first zero byte (`bytes.IndexByte(b, 0)`). -/
def lineOf (data : List Char) : String :=
  ⟨(data ++ List.replicate (minRead - data.length) nullChar).takeWhile
    (fun c => c ≠ nullChar)⟩

/-- The `UI.Run` read/dispatch loop over a scripted input stream.  An
exhausted script reads as `(0, io.EOF)`.  Returns the dispatched lines
in order and the loop's final `err` value. -/
def runLoop (eng : String → Int) : List ReadItem → List String × Option BaseErr
  | [] => ([], some BaseErr.eof)
  | item :: rest =>
    let n := item.data.length
    let err := item.rerr
    if (err ≠ none ∧ err ≠ some BaseErr.eof) ∨ n = 0 then
      ([], err)
    else
      let line := lineOf item.data
      if eng line ≠ 0 then ([line], err)
      else if err = some BaseErr.eof then ([line], err)
      else
        let rec_ := runLoop eng rest
        (line :: rec_.1, rec_.2)

/-- The scenario engine for the quit test: status 0 for every line
except the literal line `quit`, which returns 1. -/
def quitEngine (line : String) : Int :=
  if line = "quit" then 1 else 0

/-! ## Panic recovery in `UI.Run` -/

/-- A Go panic value: either an `error`, or any non-error value. -/
inductive PanicVal : Type where
  | errVal (e : GoError)
  | nonErr (tag : Nat)
deriving DecidableEq, Repr

/-- How the body of `UI.Run` finished: returning normally with `err`,
or panicking with value `p` while the named return `err` held
`errAtPanic`. -/
inductive BodyOutcome : Type where
  | normal (err : Option GoError)
  | panicked (p : PanicVal) (errAtPanic : Option GoError)
deriving DecidableEq, Repr

/-- `UI.Run`'s deferred recover: a non-nil recovered value that is an
`error` is wrapped as `errors.Wrap(rerr, "sand: recovered from panic")`
and returned; a recovered value that is not an `error` is dropped
(`return` from the deferred function after `recover()` already ran), so
the panic is swallowed and `err` is returned unchanged. -/
def runRecover : BodyOutcome → Option GoError
  | .normal err => err
  | .panicked (.errVal e) _ => some (.wrap "sand: recovered from panic" e)
  | .panicked (.nonErr _) errAtPanic => errAtPanic

end Sand

/-! ## Helper lemmas for the dispatch protocol -/

namespace Sand

theorem execSeq_id_ge :
    ∀ (ls : List String) (k : Nat), ∀ r ∈ execSeq k ls, k ≤ r.respCh.id := by
  intro ls
  induction ls with
  | nil => intro k r hr; simp [execSeq] at hr
  | cons l ls ih =>
    intro k r hr
    rcases List.mem_cons.mp hr with h | h
    · subst h; exact le_refl _
    · exact Nat.le_of_succ_le (ih (k + 1) r h)

theorem execSeq_capacity :
    ∀ (ls : List String) (k : Nat), ∀ r ∈ execSeq k ls, r.respCh.capacity = 0 := by
  intro ls
  induction ls with
  | nil => intro k r hr; simp [execSeq] at hr
  | cons l ls ih =>
    intro k r hr
    rcases List.mem_cons.mp hr with h | h
    · subst h; rfl
    · exact ih (k + 1) r h

theorem execSeq_ids_pairwise_ne :
    ∀ (ls : List String) (k : Nat),
      (execSeq k ls).Pairwise (fun a b => a.respCh.id ≠ b.respCh.id) := by
  intro ls
  induction ls with
  | nil => intro k; simp [execSeq]
  | cons l ls ih =>
    intro k
    refine List.Pairwise.cons (fun b hb => ?_) (ih (k + 1))
    have hk : k + 1 ≤ b.respCh.id := execSeq_id_ge ls (k + 1) b hb
    simp only [mkExecReq]
    omega

theorem findRunner_mem {e r : Nat} :
    ∀ {l : List (Nat × Nat)}, findRunner e l = some r → (e, r) ∈ l := by
  intro l
  induction l with
  | nil => intro h; simp [findRunner] at h
  | cons a t ih =>
    obtain ⟨x, y⟩ := a
    intro h
    by_cases hae : x = e
    · simp only [findRunner, hae, if_pos rfl] at h
      simp [hae, Option.some.inj h]
    · simp only [findRunner, hae, if_false, if_neg hae] at h
      exact List.mem_cons_of_mem _ (ih h)

theorem not_mem_of_findRunner_eq_none {e : Nat} :
    ∀ {l : List (Nat × Nat)}, findRunner e l = none → e ∉ l.map Prod.fst := by
  intro l
  induction l with
  | nil => intro _ h; simp at h
  | cons a t ih =>
    intro h hm
    by_cases hae : a.1 = e
    · simp [findRunner, hae] at h
    · simp only [findRunner, hae, if_false, if_neg hae] at h
      simp only [List.map_cons, List.mem_cons] at hm
      rcases hm with hm | hm
      · exact hae hm.symm
      · exact ih h hm

theorem wf_startEngine (e : Nat) (st : Registry) (h : RegWF st) :
    RegWF (startEngine e st).1 := by
  obtain ⟨h1, h2, h3⟩ := h
  unfold startEngine
  cases hf : findRunner e st.engs with
  | some r => exact ⟨h1, h2, h3⟩
  | none =>
    refine ⟨?_, ?_, ?_⟩
    · rw [show ((⟨(e, st.next) :: st.engs, st.next + 1⟩ : Registry), st.next).1.engs
          = (e, st.next) :: st.engs from rfl, List.map_cons]
      exact List.nodup_cons.mpr ⟨not_mem_of_findRunner_eq_none hf, h1⟩
    · rw [show ((⟨(e, st.next) :: st.engs, st.next + 1⟩ : Registry), st.next).1.engs
          = (e, st.next) :: st.engs from rfl, List.map_cons]
      refine List.nodup_cons.mpr ⟨fun hm => ?_, h2⟩
      rcases List.mem_map.mp hm with ⟨p, hp, hpe⟩
      exact absurd (hpe ▸ h3 p hp) (lt_irrefl _)
    · intro p hp
      rcases List.mem_cons.mp hp with hp | hp
      · subst hp; exact Nat.lt_succ_self _
      · exact Nat.lt_succ_of_lt (h3 p hp)

theorem wf_runnerExit (e : Nat) (st : Registry) (h : RegWF st) :
    RegWF (runnerExit e st) := by
  obtain ⟨h1, h2, h3⟩ := h
  refine ⟨?_, ?_, ?_⟩
  · exact h1.sublist ((List.filter_sublist _).map _)
  · exact h2.sublist ((List.filter_sublist _).map _)
  · intro p hp
    exact h3 p (List.mem_of_mem_filter hp)

theorem reachable_wf {st : Registry} (h : Reachable st) : RegWF st := by
  induction h with
  | init =>
    exact ⟨List.nodup_nil, List.nodup_nil, fun p hp => absurd hp (List.not_mem_nil p)⟩
  | attach e st _ ih => exact wf_startEngine e st ih
  | exit e st _ ih => exact wf_runnerExit e st ih

theorem filter_key_length_le_one (e : Nat) :
    ∀ (l : List (Nat × Nat)), (l.map Prod.fst).Nodup →
      (l.filter (fun p => p.1 = e)).length ≤ 1 := by
  intro l
  induction l with
  | nil => intro _; simp
  | cons a t ih =>
    intro h
    simp only [List.map_cons, List.nodup_cons] at h
    by_cases hae : a.1 = e
    · have ht : t.filter (fun p => decide (p.1 = e)) = [] := by
        refine List.filter_eq_nil_iff.mpr fun p hp => ?_
        simp only [decide_eq_true_eq]
        intro hpe
        exact h.1 (List.mem_map.mpr ⟨p, hp, by omega⟩)
      simp [List.filter_cons, hae, ht]
    · simpa [List.filter_cons, hae] using ih h.2

theorem findRunner_startEngine_other {e1 e2 : Nat} (st : Registry) (hne : e1 ≠ e2) :
    findRunner e2 ((startEngine e1 st).1).engs = findRunner e2 st.engs := by
  unfold startEngine
  cases hf : findRunner e1 st.engs with
  | some r => rfl
  | none => simp [findRunner, hne]

theorem findRunner_filter_self (e : Nat) :
    ∀ (l : List (Nat × Nat)), findRunner e (l.filter (fun p => p.1 ≠ e)) = none := by
  intro l
  induction l with
  | nil => rfl
  | cons a t ih =>
    by_cases hae : a.1 = e
    · simpa [List.filter_cons, hae] using ih
    · simpa [List.filter_cons, hae, findRunner] using ih

end Sand

/-! ## Claim theorems (part 1) -/

namespace Sand

/-- C7 (counterexample): the claim states that the core's internal
newline-write wrapping (`newLineErr`) is always classified recoverable,
but `IsRecoverable` unwraps `newLineErr` and re-runs the type switch on
the wrapped error: a `newLineErr` wrapping a `net.Error` is classified
non-recoverable. -/
theorem isRecoverable_newLine_net_not_recoverable :
    (IsRecoverable (some (GoError.base (BaseErr.newLine (BaseErr.netErr "conn reset"))))).2
      = false := by
  decide

/-- C7 (amended): `IsRecoverable` reports recoverable for `nil`, for a
root cause of `context.Canceled` or `context.DeadlineExceeded`, and by
default for every other error; root causes that are network-class or
runtime-class are non-recoverable; a `newLineErr` wrapping is treated
transparently — it is unwrapped (repeatedly) and the wrapped error is
classified by the same switch, so it is recoverable exactly when the
wrapped error is not network- or runtime-class. -/
theorem isRecoverable_characterization :
    IsRecoverable none = (none, true) ∧
    (∀ e : GoError,
      (IsRecoverable (some e)).2 = !isNetOrRuntime (unwrapNewLine (cause e))) := by
  refine ⟨rfl, fun e => ?_⟩
  unfold IsRecoverable
  by_cases h : cause e = .deadlineExceeded ∨ cause e = .canceled
  · rcases h with h | h <;> simp [h, unwrapNewLine, isNetOrRuntime]
  · simp only [h, if_false]
    exact classify_snd_eq (cause e)

/-- C8: for every received OS signal, the registered per-signal
transform is applied when one exists (identity otherwise), and
`cancel()` is invoked if and only if the resulting signal is
`os.Interrupt` or `os.Kill`; any other resulting signal is suppressed. -/
theorem monitorStep_cancels_iff
    (handlers : Sig → Option (Sig → Sig)) (sig : Sig) :
    (∀ h, handlers sig = some h → effectiveSig handlers sig = h sig) ∧
    (handlers sig = none → effectiveSig handlers sig = sig) ∧
    (monitorStep handlers sig = true ↔
      effectiveSig handlers sig = Sig.interrupt ∨ effectiveSig handlers sig = Sig.kill) := by
  refine ⟨fun h hh => ?_, fun hh => ?_, ?_⟩
  · simp [effectiveSig, hh]
  · simp [effectiveSig, hh]
  · unfold monitorStep effectiveSig
    cases handlers sig with
    | none => constructor <;> intro h <;> [simpa [or_comm] using h; simpa [or_comm] using h]
    | some f => constructor <;> intro h <;> [simpa [or_comm] using h; simpa [or_comm] using h]

/-- C1 (counterexample): the claim states that whenever the session's
context is already done at the time of the call, `exec` returns status 0
without sending the request.  But the `select` in `UI.exec` does not
prioritise the done branch: when the runner's forwarding goroutine is
simultaneously ready to receive on the outbound channel, Go's uniform
pseudo-random choice may pick the send case — here the pick favours the
send and the engine's delivered status is 7, so `exec` sends the request
and returns 7, not 0. -/
theorem exec_done_ctx_may_still_send :
    exec (RaceEv.simultaneous false) (some 7) = (true, 7) ∧
    exec (RaceEv.simultaneous false) (some 7) ≠ (false, 0) := by
  decide

/-- C1 (amended): when the session's context is already done at the time
`exec` is called (so the send cannot be strictly first in the race),
`exec` returns the zero status without blocking and without sending the
request whenever the select's done branch wins — which is guaranteed
when no runner-side receiver is simultaneously ready; if a ready
receiver makes the select pick the send case instead, `exec` sends the
request and returns the status delivered on the response slot (zero on
closed-without-value). -/
theorem exec_ctx_done (ev : RaceEv) (delivered : Option Int)
    (h : ev ≠ RaceEv.commFirst) :
    (selectResolve ev = SelBranch.done → exec ev delivered = (false, 0)) ∧
    (selectResolve ev = SelBranch.comm →
      exec ev delivered = (true, delivered.getD 0)) := by
  cases ev with
  | doneFirst => exact ⟨fun _ => rfl, fun hc => by simp [selectResolve] at hc⟩
  | commFirst => exact absurd rfl h
  | simultaneous pickDone =>
    cases pickDone with
    | true => exact ⟨fun _ => rfl, fun hc => by simp [selectResolve] at hc⟩
    | false => exact ⟨fun hd => by simp [selectResolve] at hd, fun _ => rfl⟩

/-- Witness for `exec_ctx_done` at the concrete event where only the
done branch is ready. -/
theorem exec_ctx_done_witness :
    (selectResolve RaceEv.doneFirst = SelBranch.done →
      exec RaceEv.doneFirst (some 3) = (false, 0)) ∧
    (selectResolve RaceEv.doneFirst = SelBranch.comm →
      exec RaceEv.doneFirst (some 3) = (true, (some (3 : Int)).getD 0)) :=
  exec_ctx_done RaceEv.doneFirst (some 3) (by decide)

/-- C2: once the engine's execution of a dispatch request completes with
status `resp`, the forwarding goroutine either sends `resp` on the
response slot exactly once and then closes it — and the waiting `exec`
caller receives exactly that status — or, when the runner's root
cancellation wins the delivery race, closes the slot without writing a
value — and the waiting `exec` caller observes the zero status. -/
theorem dispatch_response_delivery (ev : RaceEv) (resp : Int) :
    (respTrace ev resp = [ChanOp.send resp, ChanOp.close] ∧
      execStatusOf ev resp = resp) ∨
    (selectResolve ev = SelBranch.done ∧ respTrace ev resp = [ChanOp.close] ∧
      execStatusOf ev resp = 0) := by
  cases ev with
  | doneFirst => exact Or.inr ⟨rfl, rfl, rfl⟩
  | commFirst => exact Or.inl ⟨rfl, rfl⟩
  | simultaneous pickDone =>
    cases pickDone with
    | true => exact Or.inr ⟨rfl, rfl, rfl⟩
    | false => exact Or.inl ⟨rfl, rfl⟩

/-- C6 (counterexample): the claim states the response slot has capacity
exactly one, but `UI.exec` creates it with `make(chan int)`, i.e. an
unbuffered channel of capacity zero. -/
theorem respCh_capacity_not_one :
    (mkExecReq 0 "x").respCh.capacity ≠ 1 := by
  decide

/-- C6 (amended): every dispatch request's response slot is a
single-use *unbuffered* channel (capacity exactly zero), written at
most once and then closed (the forwarding goroutine's trace on it is
either close-without-value or one send followed by close), and response
slots are never reused across `exec` calls: each call allocates a fresh
channel, so the requests of any sequence of `exec` calls carry pairwise
distinct response channels. -/
theorem resp_slot_single_use (k : Nat) (lines : List String)
    (ev : RaceEv) (v : Int) :
    (∀ req ∈ execSeq k lines, req.respCh.capacity = 0) ∧
    (execSeq k lines).Pairwise (fun a b => a.respCh.id ≠ b.respCh.id) ∧
    (respTrace ev v = [ChanOp.close] ∨
      respTrace ev v = [ChanOp.send v, ChanOp.close]) := by
  refine ⟨execSeq_capacity lines k, execSeq_ids_pairwise_ne lines k, ?_⟩
  cases ev with
  | doneFirst => exact Or.inl rfl
  | commFirst => exact Or.inr rfl
  | simultaneous pickDone => cases pickDone with
    | true => exact Or.inl rfl
    | false => exact Or.inr rfl

/-- C3: a `UI.Read` or `UI.Write` whose cancellation context becomes
done before the underlying blocking primitive returns (so the worker's
result slot is still empty at the caller's select, making the done
branch the only ready case) returns `(0, ctx.Err())` regardless of the
result the primitive eventually produces; the worker goroutine is not
killed — it runs to completion, its result is discarded (the caller's
return value does not depend on it) and it closes the slot.  The
`Write` clause assumes the call actually reaches the primitive, i.e.
not the nil-prefix-and-nil-argument skip. -/
theorem io_cancellation (ctxErr : BaseErr) (resp : IOResp) (wev : RaceEv)
    (pre b : Option (List Char)) (hpb : ¬(pre = none ∧ b = none)) :
    (cancelledRead ctxErr resp wev).1 = ⟨0, some ctxErr⟩ ∧
    (cancelledRead ctxErr resp wev).2.closed = true ∧
    (cancelledWrite pre b ctxErr resp wev).1 = ⟨0, some ctxErr⟩ ∧
    (cancelledWrite pre b ctxErr resp wev).2.closed = true := by
  have hclosed : (workerFinish wev resp).closed = true := by
    cases wev with
    | doneFirst => rfl
    | commFirst => rfl
    | simultaneous pickDone => cases pickDone with
      | true => rfl
      | false => rfl
  refine ⟨rfl, hclosed, ?_, hclosed⟩
  simp [cancelledWrite, UIWrite, hpb, selectResolve]

/-- Witness for `io_cancellation` with a cancelled context, a worker
that eventually read 3 bytes, and a one-character prefix. -/
theorem io_cancellation_witness :
    (cancelledRead BaseErr.canceled ⟨3, none⟩ RaceEv.commFirst).1
        = ⟨0, some BaseErr.canceled⟩ ∧
    (cancelledRead BaseErr.canceled ⟨3, none⟩ RaceEv.commFirst).2.closed = true ∧
    (cancelledWrite (some ['>']) none BaseErr.canceled ⟨3, none⟩
        RaceEv.commFirst).1 = ⟨0, some BaseErr.canceled⟩ ∧
    (cancelledWrite (some ['>']) none BaseErr.canceled ⟨3, none⟩
        RaceEv.commFirst).2.closed = true :=
  io_cancellation BaseErr.canceled ⟨3, none⟩ RaceEv.commFirst
    (some ['>']) none (by decide)

/-- C4: in every reachable registry state, (i) each engine identity has
at most one live runner; (ii) attaching to one engine identity neither
changes another identity's registry entry nor yields the other
identity's runner; (iii) once a runner's registry entry is removed on
cancellation, the engine has no entry, and a later attach with the same
engine identity allocates a runner that is fresh — distinct from every
runner live before the removal, in particular from the removed one. -/
theorem registry_invariants (st : Registry) (h : Reachable st)
    (e e1 e2 r r2 : Nat) (hne : e1 ≠ e2)
    (hr : findRunner e st.engs = some r)
    (hr2 : findRunner e2 st.engs = some r2) :
    (st.engs.filter (fun p => p.1 = e)).length ≤ 1 ∧
    findRunner e2 ((startEngine e1 st).1).engs = findRunner e2 st.engs ∧
    (startEngine e1 st).2 ≠ r2 ∧
    findRunner e (runnerExit e st).engs = none ∧
    (startEngine e (runnerExit e st)).2 ∉ st.engs.map Prod.snd ∧
    (startEngine e (runnerExit e st)).2 ≠ r := by
  obtain ⟨h1, h2, h3⟩ := reachable_wf h
  have hnotmem : st.next ∉ st.engs.map Prod.snd := by
    intro hm
    rcases List.mem_map.mp hm with ⟨p, hp, hpe⟩
    exact absurd (hpe ▸ h3 p hp) (lt_irrefl _)
  have hfresh : (startEngine e (runnerExit e st)).2 = st.next := by
    unfold startEngine
    rw [show (runnerExit e st).engs = st.engs.filter (fun p => p.1 ≠ e) from rfl,
      findRunner_filter_self e st.engs]
    rfl
  refine ⟨filter_key_length_le_one e st.engs h1,
    findRunner_startEngine_other st hne, ?_, findRunner_filter_self e st.engs, ?_, ?_⟩
  · unfold startEngine
    cases hf : findRunner e1 st.engs with
    | some r1 =>
      intro heq
      have heq' : r1 = r2 := heq
      subst heq'
      have hmem1 := findRunner_mem hf
      have hmem2 := findRunner_mem hr2
      have := List.inj_on_of_nodup_map h2 hmem1 hmem2 rfl
      exact hne (congrArg Prod.fst this)
    | none =>
      intro heq
      have heq' : st.next = r2 := heq
      exact hnotmem (by
        rw [heq']
        exact List.mem_map.mpr ⟨(e2, r2), findRunner_mem hr2, rfl⟩)
  · exact hfresh ▸ hnotmem
  · intro hrr
    rw [hfresh] at hrr
    exact hnotmem (by
      rw [hrr]
      exact List.mem_map.mpr ⟨(e, r), findRunner_mem hr, rfl⟩)

/-- Witness for `registry_invariants` at the state where engines 0 and 1
have each been attached once. -/
theorem registry_invariants_witness :
    (regDemoState.engs.filter (fun p => p.1 = 0)).length ≤ 1 ∧
    findRunner 1 ((startEngine 0 regDemoState).1).engs
        = findRunner 1 regDemoState.engs ∧
    (startEngine 0 regDemoState).2 ≠ 1 ∧
    findRunner 0 (runnerExit 0 regDemoState).engs = none ∧
    (startEngine 0 (runnerExit 0 regDemoState)).2
        ∉ regDemoState.engs.map Prod.snd ∧
    (startEngine 0 (runnerExit 0 regDemoState)).2 ≠ 0 :=
  registry_invariants regDemoState
    (Reachable.attach 1 (startEngine 0 ⟨[], 0⟩).1
      (Reachable.attach 0 ⟨[], 0⟩ Reachable.init))
    0 0 1 0 1 (by decide) (by decide) (by decide)

/-- C5: driving the run loop with the engine that returns status 0 for
every line except the literal line `quit` (status 1), against an input
stream that yields the lines of `a\nb\nquit\n` one read at a time,
executes exactly 3 dispatches — `a`, `b`, `quit` — and terminates after
the third dispatch: whatever further input follows is never read. -/
theorem run_quit_scenario (rest : List ReadItem) :
    runLoop quitEngine
        ([⟨"a".data, none⟩, ⟨"b".data, none⟩, ⟨"quit".data, none⟩] ++ rest)
      = (["a", "b", "quit"], none) ∧
    (runLoop quitEngine
        ([⟨"a".data, none⟩, ⟨"b".data, none⟩, ⟨"quit".data, none⟩] ++ rest)).1.length
      = 3 := by
  have ha : lineOf "a".data = "a" := by decide
  have hb : lineOf "b".data = "b" := by decide
  have hq : lineOf "quit".data = "quit" := by decide
  have la : "a".data.length = 1 := by decide
  have lb : "b".data.length = 1 := by decide
  have lq : "quit".data.length = 4 := by decide
  have h : runLoop quitEngine
      ([⟨"a".data, none⟩, ⟨"b".data, none⟩, ⟨"quit".data, none⟩] ++ rest)
      = (["a", "b", "quit"], none) := by
    simp [runLoop, ha, hb, hq, la, lb, lq, quitEngine]
  exact ⟨h, by rw [h]; rfl⟩

/-- C9: when a read of the input stream reports end-of-input with zero
bytes read, the run loop terminates at once without issuing a dispatch
for that empty read, for every engine and whatever input would have
followed. -/
theorem run_empty_eof_read (eng : String → Int) (rest : List ReadItem) :
    runLoop eng (⟨[], some BaseErr.eof⟩ :: rest) = ([], some BaseErr.eof) := by
  simp [runLoop]

/-- C10: if the body of `UI.Run` panics with a value that is an
`error`, the deferred recover returns that error wrapped with
`sand: recovered from panic`; if the panic value is not an `error`, the
panic is swallowed and `Run` returns the error result unchanged — so a
non-error panic with a nil error result is indistinguishable from a
successful run at the public interface. -/
theorem run_panic_recovery (e : GoError) (errAtPanic : Option GoError) (tag : Nat) :
    runRecover (BodyOutcome.panicked (PanicVal.errVal e) errAtPanic)
        = some (GoError.wrap "sand: recovered from panic" e) ∧
    runRecover (BodyOutcome.panicked (PanicVal.nonErr tag) errAtPanic)
        = errAtPanic ∧
    runRecover (BodyOutcome.panicked (PanicVal.nonErr tag) none)
        = runRecover (BodyOutcome.normal none) :=
  ⟨rfl, rfl, rfl⟩

end Sand
